import Mathlib

/-!
Verification development for the ITAM titulados scraper
(`scrape_titulados.py`): a shallow embedding of its pure core
(name splitting, index/table parsing, filename sanitizing) and of its
effectful skeleton (fetch retries, per-category worker, run coordinator)
with the network abstracted as an oracle function.
-/

namespace Titulados

/-- Maximal whitespace-free runs of a character list; models Python
`str.split()` (split on runs of whitespace, dropping empty pieces). -/
def words : List Char → List (List Char)
  | [] => []
  | c :: cs =>
    if c.isWhitespace then words cs
    else (c :: cs.takeWhile (fun x => !x.isWhitespace)) ::
      words (cs.dropWhile (fun x => !x.isWhitespace))
termination_by l => l.length
decreasing_by
  · simp
  · have h := (List.dropWhile_sublist (fun x => !x.isWhitespace) (l := cs)).length_le
    simp only [List.length_cons]
    omega

/-- Remove leading and trailing whitespace; models Python `str.strip()`. -/
def stripChars (l : List Char) : List Char :=
  ((l.dropWhile Char.isWhitespace).reverse.dropWhile Char.isWhitespace).reverse

/-- `str.strip()` on strings. -/
def pyStrip (s : String) : String := ⟨stripChars s.data⟩

/-- `str.split()` on strings (whitespace tokenization, no empty tokens). -/
def pySplitWS (s : String) : List String := (words s.data).map fun w => ⟨w⟩

/-- Join character-list tokens with single spaces (model of `" ".join`). -/
def joinWords : List (List Char) → List Char
  | [] => []
  | [w] => w
  | w :: x :: xs => w ++ ' ' :: joinWords (x :: xs)

/-- `" ".join(tokens)` on strings. -/
def joinTokens (ts : List String) : String := ⟨joinWords (ts.map String.data)⟩

/-- The four name components produced by `split_name`
(`apellido_paterno`, `apellido_materno`, `primer_nombre`, `segundo_nombre`). -/
structure NameParts where
  apellido_paterno : String
  apellido_materno : String
  primer_nombre : String
  segundo_nombre : String
deriving DecidableEq, Repr

/-- Embedding of `split_name` (scrape_titulados.py, lines 128-169):
`tokens = full_name.strip().split()`, then branch on the token count. -/
def split_name (full_name : String) : NameParts :=
  let tokens := pySplitWS (pyStrip full_name)
  let n := tokens.length
  if n ≥ 4 then
    { apellido_paterno := tokens[0]!
      apellido_materno := tokens[1]!
      primer_nombre := tokens[2]!
      segundo_nombre := joinTokens (tokens.drop 3) }
  else if n = 3 then
    { apellido_paterno := tokens[0]!
      apellido_materno := tokens[1]!
      primer_nombre := tokens[2]!
      segundo_nombre := "" }
  else if n = 2 then
    { apellido_paterno := tokens[0]!
      apellido_materno := ""
      primer_nombre := tokens[1]!
      segundo_nombre := "" }
  else if n = 1 then
    { apellido_paterno := tokens[0]!
      apellido_materno := ""
      primer_nombre := ""
      segundo_nombre := "" }
  else
    { apellido_paterno := ""
      apellido_materno := ""
      primer_nombre := ""
      segundo_nombre := "" }

/-- `needle in hay` on character lists; models Python's `in` substring test. -/
def listContains (needle : List Char) : List Char → Bool
  | [] => needle.isEmpty
  | c :: cs => needle.isPrefixOf (c :: cs) || listContains needle cs

/-- Python's `needle in hay` on strings. -/
def containsStr (hay needle : String) : Bool := listContains needle.data hay.data

/-- Python's `s.startswith(p)`. -/
def startsWithStr (s p : String) : Bool := p.data.isPrefixOf s.data

/-- Python's `s.upper()` (per-character uppercasing). -/
def upperStr (s : String) : String := ⟨s.data.map Char.toUpper⟩

/-- One `<a href=...>` element: its `href` attribute and visible text. -/
structure Anchor where
  href : String
  text : String
deriving DecidableEq, Repr

/-- One `<table>` as the scraper sees it: the cell texts of each `<tr>`
(in document order) and all anchors contained in the table (in document
order).  An HTML document is a `List HTable` — the result of
`soup.find_all("table")` in document order. -/
structure HTable where
  rows : List (List String)
  anchors : List Anchor
deriving DecidableEq, Repr

/-- `BASE_URL` constant (scrape_titulados.py, line 19). -/
def BASE_URL : String := "https://escolar1.rhon.itam.mx/titulacion"

/-- `RETRIES` constant (line 23). -/
def RETRIES : Nat := 2

/-- `RETRY_DELAY` constant, in seconds (line 24). -/
def RETRY_DELAY : Nat := 2

/-- URL resolution in `parse_programas` (lines 84-89): absolute (`http...`)
hrefs pass through, hrefs starting with `/` get the host prepended, other
hrefs are appended to `BASE_URL`. -/
def resolve_href (href : String) : String :=
  if startsWithStr href "http" then href
  else if startsWithStr href "/" then "https://escolar1.rhon.itam.mx" ++ href
  else BASE_URL ++ "/" ++ href

/-- The anchor loop of `parse_programas` (lines 77-90): keep anchors whose
stripped href contains `"titulados.asp"` and `"prog="` and whose stripped
visible text is non-empty; emit `(name, resolved url)` pairs in order. -/
def collectAnchors : List Anchor → List (String × String)
  | [] => []
  | a :: rest =>
    let href := pyStrip a.href
    if !(containsStr href "titulados.asp" && containsStr href "prog=") then
      collectAnchors rest
    else
      let name := pyStrip a.text
      if name = "" then collectAnchors rest
      else (name, resolve_href href) :: collectAnchors rest

/-- How `parse_programas` treats one table (lines 63-74): `terminator` when
the first row has exactly one cell normalizing to `"DOCTORADO"` (the `break`),
`target` when it normalizes to `"LICENCIATURA"`, `skip` otherwise
(no first row, cell count ≠ 1, or any other section name). -/
inductive TableClass where
  | terminator
  | target
  | skip
deriving DecidableEq, Repr

/-- Classify one table as in the header tests of `parse_programas`
(lines 63-74): `get_text(strip=True).upper()` of the sole first-row cell. -/
def classifyTable (t : HTable) : TableClass :=
  match t.rows with
  | [] => .skip
  | firstRow :: _ =>
    match firstRow with
    | [cell] =>
      let sectionName := upperStr (pyStrip cell)
      if sectionName = "DOCTORADO" then .terminator
      else if sectionName = "LICENCIATURA" then .target
      else .skip
    | _ => .skip

/-- Embedding of `parse_programas` (lines 54-92): walk the tables in
document order, `break` at the first terminator table, collect qualifying
anchors from each target table, skip the rest. -/
def parse_programas : List HTable → List (String × String)
  | [] => []
  | t :: ts =>
    match classifyTable t with
    | .terminator => []
    | .target => collectAnchors t.anchors ++ parse_programas ts
    | .skip => parse_programas ts

/-- Joined header text of a table as in `parse_titulados_table`
(lines 103-110): `" ".join` of the stripped cell texts of the first row
(empty when there is no first row). -/
def headerText (t : HTable) : String :=
  match t.rows with
  | [] => ""
  | firstRow :: _ => joinTokens (firstRow.map pyStrip)

/-- Header test of `parse_titulados_table` (lines 103-114): the first row
must exist and have at least one cell, and the joined header text must
contain `"Nombre"`, `"alumno"` and `"titulaci"`. -/
def tableMatches (t : HTable) : Bool :=
  match t.rows with
  | [] => false
  | firstRow :: _ =>
    match firstRow with
    | [] => false
    | _ :: _ =>
      let ht := joinTokens (firstRow.map pyStrip)
      containsStr ht "Nombre" && containsStr ht "alumno" && containsStr ht "titulaci"

/-- Data rows of the matched table (lines 116-122): skip the first row;
for every later row with at least two cells take the stripped texts of the
first two cells, keeping the pair when at least one is non-empty. -/
def rowData (t : HTable) : List (String × String) :=
  (t.rows.drop 1).filterMap fun r =>
    match r with
    | c0 :: c1 :: _ =>
      let nombre := pyStrip c0
      let anio := pyStrip c1
      if nombre ≠ "" ∨ anio ≠ "" then some (nombre, anio) else none
    | _ => none

/-- Embedding of `parse_titulados_table` (lines 95-125): the rows of the
first table whose header matches; later tables are not scanned (`break`). -/
def parse_titulados_table : List HTable → List (String × String)
  | [] => []
  | t :: ts => if tableMatches t then rowData t else parse_titulados_table ts

/-- The characters replaced by `sanitize_filename` (line 50):
`< > : " / \ | ? *`. -/
def unsafeFilenameChars : List Char := ['<', '>', ':', '"', '/', '\\', '|', '?', '*']

/-- Embedding of `sanitize_filename` (lines 47-51): replace each unsafe
character by `_`, strip the result, and fall back to `"unknown"` when the
stripped result is empty (`sanitized.strip() or "unknown"`). -/
def sanitize_filename (name : String) : String :=
  let sanitized : String := ⟨name.data.map fun c => if c ∈ unsafeFilenameChars then '_' else c⟩
  let stripped := pyStrip sanitized
  if stripped = "" then "unknown" else stripped

/-- A fetch oracle: attempt index ↦ decoded body or transport error.
Abstracts one `requests.get` + `raise_for_status` + decode. -/
def AttemptFn : Type := Nat → Except String String

/-- The retry loop of `get_latest_html` (lines 27-44), instrumented with
the list of sleeps performed: attempt `i`; on success return the body with
no further attempt; on failure either recurse (recording one
`RETRY_DELAY`-second sleep) while retries remain, or fail carrying the
last cause (`RuntimeError(f"Failed to fetch {url}: {e}")`). -/
def get_latest_html_go (f : AttemptFn) (url : String) : Nat → Nat → Except String String × List Nat
  | i, rem =>
    match f i with
    | .ok body => (.ok body, [])
    | .error e =>
      match rem with
      | 0 => (.error ("Failed to fetch " ++ url ++ ": " ++ e), [])
      | r + 1 =>
        let next := get_latest_html_go f url (i + 1) r
        (next.1, RETRY_DELAY :: next.2)

/-- Embedding of `get_latest_html` (lines 27-44): the loop
`for attempt in range(RETRIES + 1)` starting at attempt 0 with `RETRIES`
retries remaining; returns the result together with the sleeps performed. -/
def get_latest_html (f : AttemptFn) (url : String) : Except String String × List Nat :=
  get_latest_html_go f url 0 RETRIES

/-- A category fetch oracle: (url, forced encoding) ↦ parsed document or
fetch error.  Abstracts `get_latest_html` composed with HTML parsing. -/
def FetchFn : Type := String → Option String → Except String (List HTable)

/-- Embedding of `scrape_career`'s fetch/parse/retry logic (lines 172-204,
CSV writing elided): fetch with no forced encoding and parse; if no rows
and the url contains `"titulados.asp"`, re-fetch the same url with
`"iso-8859-1"` forced and re-parse; return the row count. -/
def scrape_career (fetch : FetchFn) (url : String) : Except String Nat :=
  match fetch url none with
  | .error e => .error e
  | .ok html =>
    let rows := parse_titulados_table html
    if rows = [] ∧ containsStr url "titulados.asp" then
      match fetch url (some "iso-8859-1") with
      | .error e => .error e
      | .ok html2 => .ok (parse_titulados_table html2).length
    else .ok rows.length

/-- A category worker oracle: (career name, url) ↦ row count or error.
Abstracts `scrape_career` as dispatched by `main`. -/
def WorkerFn : Type := String → String → Except String Nat

/-- The future-collection loop of `main` (lines 219-233): one outcome
triple `(name, count, error)` per career — `(name, count, None)` on
success, `(name, 0, str(e))` on failure.  Collection is per-career
try/except, so one failure never drops a sibling's outcome. -/
def run_workers (worker : WorkerFn) (careers : List (String × String)) :
    List (String × Nat × Option String) :=
  careers.map fun c =>
    match worker c.1 c.2 with
    | .ok count => (c.1, count, none)
    | .error e => (c.1, 0, some e)

/-- The end-of-run summary printed by `main` (lines 235-239). -/
structure RunSummary where
  okCount : Nat
  totalCareers : Nat
  totalRows : Nat
  failures : List (String × String)
deriving DecidableEq, Repr

/-- Outcome of one run of `main` (lines 207-239): index fetch failure
(the `get_latest_html(PROGRAMAS_URL)` exception escapes), the zero-category
early return (`"No Licenciatura links found."`), or a completed summary. -/
inductive RunOutcome where
  | fetchFailure (msg : String)
  | discoveryFailure
  | completed (s : RunSummary)
deriving DecidableEq, Repr

/-- Embedding of `main` (lines 207-239): parse the index document, return
early when no careers are found, otherwise run every worker, count
successes, sum rows over successes, and list the failures with causes. -/
def main_run (fetchIndex : Except String (List HTable)) (worker : WorkerFn) : RunOutcome :=
  match fetchIndex with
  | .error e => .fetchFailure e
  | .ok doc =>
    let careers := parse_programas doc
    if careers = [] then .discoveryFailure
    else
      let results := run_workers worker careers
      let successes := results.filter fun r => r.2.2.isNone
      .completed
        { okCount := successes.length
          totalCareers := careers.length
          totalRows := (successes.map fun r => r.2.1).sum
          failures := results.filterMap fun r => r.2.2.map fun e => (r.1, e) }

/-- A Licenciatura-tier table with one qualifying anchor. -/
def licTableA : HTable :=
  { rows := [["LICENCIATURA"]], anchors := [⟨"titulados.asp?prog=1", "ACTUARIA"⟩] }

/-- A Doctorado-tier (terminator) table, with an anchor that would qualify. -/
def doctTable : HTable :=
  { rows := [["Doctorado"]], anchors := [⟨"titulados.asp?prog=9", "DOCTORADO X"⟩] }

/-- A second Licenciatura-tier table, placed after the terminator. -/
def licTableB : HTable :=
  { rows := [["LICENCIATURA"]], anchors := [⟨"titulados.asp?prog=2", "DERECHO"⟩] }

/-- An anchor with a protocol-relative link target. -/
def protoRelAnchor : Anchor := ⟨"//static.example.net/titulados.asp?prog=7", "PROTO"⟩

/-- A Licenciatura-tier table holding only the protocol-relative anchor. -/
def protoRelTable : HTable := { rows := [["LICENCIATURA"]], anchors := [protoRelAnchor] }

/-- A table whose header has the name marker but lacks the year marker. -/
def nameOnlyTable : HTable :=
  { rows := [["Nombre del alumno", "otra cosa"], ["FULANO PEREZ", "1990"]], anchors := [] }

/-- A table whose header has both the name and year markers. -/
def dataTable : HTable :=
  { rows := [["Nombre del alumno", "Año de titulación"], ["GARCIA LOPEZ MARIA", "2020"]],
    anchors := [] }

/-- A second matching table placed after `dataTable`. -/
def dataTable2 : HTable :=
  { rows := [["Nombre del alumno", "Año de titulación"], ["OTRO DATO", "2021"]], anchors := [] }

/-- A fetch oracle whose listing page parses to zero rows under both the
default and the forced legacy encoding. -/
def emptyFetch : FetchFn := fun _ _ => .ok []

/-- An attempt oracle failing once then succeeding. -/
def failThenOk : AttemptFn := fun i => if i = 0 then .error "timeout" else .ok "body"

/-- A target-tier table discovering two categories. -/
def licTableTwo : HTable :=
  { rows := [["LICENCIATURA"]],
    anchors := [⟨"titulados.asp?prog=1", "A"⟩, ⟨"titulados.asp?prog=2", "B"⟩] }

/-- A worker oracle that succeeds on category `A` and fails on the rest. -/
def demoWorker : WorkerFn := fun name _ => if name = "A" then .ok 3 else .error "boom"



theorem words_nil_eq : words [] = [] := by rw [words]

theorem words_cons_of_ws {c : Char} (hc : c.isWhitespace = true) (cs : List Char) :
    words (c :: cs) = words cs := by rw [words, if_pos hc]

theorem words_cons_of_not_ws {c : Char} (hc : ¬ c.isWhitespace = true) (cs : List Char) :
    words (c :: cs) =
      (c :: cs.takeWhile fun x => !x.isWhitespace) ::
        words (cs.dropWhile fun x => !x.isWhitespace) := by
  rw [words, if_neg hc]

theorem takeWhile_append_all {α : Type} {p : α → Bool} {l₁ : List α} (l₂ : List α)
    (h : ∀ a ∈ l₁, p a = true) :
    List.takeWhile p (l₁ ++ l₂) = l₁ ++ List.takeWhile p l₂ := by
  induction l₁ with
  | nil => simp
  | cons a t ih =>
    simp only [List.cons_append, List.takeWhile_cons, h a (by simp), if_true]
    rw [ih fun x hx => h x (by simp [hx])]

theorem dropWhile_append_all {α : Type} {p : α → Bool} {l₁ : List α} (l₂ : List α)
    (h : ∀ a ∈ l₁, p a = true) :
    List.dropWhile p (l₁ ++ l₂) = List.dropWhile p l₂ := by
  induction l₁ with
  | nil => simp
  | cons a t ih =>
    simp only [List.cons_append, List.dropWhile_cons, h a (by simp), if_true]
    exact ih fun x hx => h x (by simp [hx])

theorem takeWhile_append_not_all {α : Type} {p : α → Bool} {l₁ : List α} (l₂ : List α)
    (h : ¬ ∀ a ∈ l₁, p a = true) :
    List.takeWhile p (l₁ ++ l₂) = List.takeWhile p l₁ := by
  induction l₁ with
  | nil => exact absurd (by simp) h
  | cons a t ih =>
    by_cases ha : p a = true
    · simp only [List.cons_append, List.takeWhile_cons, ha, if_true]
      rw [ih]
      intro hall
      exact h fun x hx => by
        rcases List.mem_cons.mp hx with rfl | hx
        · exact ha
        · exact hall x hx
    · simp [List.takeWhile_cons, ha]

theorem dropWhile_append_not_all {α : Type} {p : α → Bool} {l₁ : List α} (l₂ : List α)
    (h : ¬ ∀ a ∈ l₁, p a = true) :
    List.dropWhile p (l₁ ++ l₂) = List.dropWhile p l₁ ++ l₂ := by
  induction l₁ with
  | nil => exact absurd (by simp) h
  | cons a t ih =>
    by_cases ha : p a = true
    · simp only [List.cons_append, List.dropWhile_cons, ha, if_true]
      rw [ih]
      intro hall
      exact h fun x hx => by
        rcases List.mem_cons.mp hx with rfl | hx
        · exact ha
        · exact hall x hx
    · simp [List.dropWhile_cons, ha]

theorem words_nil_of_all_ws {l : List Char} (h : ∀ c ∈ l, c.isWhitespace = true) :
    words l = [] := by
  induction l with
  | nil => exact words_nil_eq
  | cons c cs ih =>
    rw [words_cons_of_ws (h c (by simp))]
    exact ih fun x hx => h x (by simp [hx])

theorem mem_words {l w : List Char} (hw : w ∈ words l) :
    w ≠ [] ∧ ∀ c ∈ w, c.isWhitespace = false := by
  induction l using words.induct with
  | case1 => rw [words_nil_eq] at hw; simp at hw
  | case2 c cs hws ih =>
    rw [words_cons_of_ws hws] at hw
    exact ih hw
  | case3 c cs hws ih =>
    rw [words_cons_of_not_ws hws] at hw
    rcases List.mem_cons.mp hw with rfl | hw
    · refine ⟨by simp, fun x hx => ?_⟩
      rcases List.mem_cons.mp hx with rfl | hx
      · simpa using hws
      · simpa using List.mem_takeWhile_imp hx
    · exact ih hw

theorem words_single {w : List Char} (h1 : w ≠ [])
    (h2 : ∀ c ∈ w, c.isWhitespace = false) : words w = [w] := by
  cases w with
  | nil => exact absurd rfl h1
  | cons c cs =>
    rw [words_cons_of_not_ws (by simp [h2 c (by simp)])]
    rw [List.takeWhile_eq_self_iff.mpr fun x hx => by simp [h2 x (by simp [hx])]]
    rw [List.dropWhile_eq_nil_iff.mpr fun x hx => by simp [h2 x (by simp [hx])]]
    rw [words_nil_eq]

theorem words_append_ws {tws : List Char} (l : List Char)
    (h : ∀ c ∈ tws, c.isWhitespace = true) :
    words (l ++ tws) = words l := by
  induction l using words.induct with
  | case1 => rw [List.nil_append, words_nil_of_all_ws h, words_nil_eq]
  | case2 c cs hws ih =>
    rw [List.cons_append, words_cons_of_ws hws, words_cons_of_ws hws]
    exact ih
  | case3 c cs hws ih =>
    rw [List.cons_append, words_cons_of_not_ws hws, words_cons_of_not_ws hws]
    by_cases hall : ∀ a ∈ cs, (!a.isWhitespace) = true
    · rw [takeWhile_append_all _ hall, dropWhile_append_all _ hall]
      have htw : List.takeWhile (fun x => !x.isWhitespace) tws = [] := by
        cases tws with
        | nil => rfl
        | cons d ds => simp [List.takeWhile_cons, h d (by simp)]
      have hdw : List.dropWhile (fun x => !x.isWhitespace) tws = tws := by
        cases tws with
        | nil => rfl
        | cons d ds => simp [List.dropWhile_cons, h d (by simp)]
      rw [htw, hdw, List.append_nil]
      rw [List.takeWhile_eq_self_iff.mpr hall, List.dropWhile_eq_nil_iff.mpr hall]
      rw [words_nil_of_all_ws h, words_nil_eq]
    · rw [takeWhile_append_not_all _ hall, dropWhile_append_not_all _ hall]
      rw [ih]

theorem words_dropWhile (l : List Char) :
    words (List.dropWhile Char.isWhitespace l) = words l := by
  induction l with
  | nil => rfl
  | cons c cs ih =>
    by_cases hc : c.isWhitespace = true
    · rw [List.dropWhile_cons, if_pos hc, ih, words_cons_of_ws hc]
    · rw [List.dropWhile_cons, if_neg hc]

theorem words_stripChars (l : List Char) : words (stripChars l) = words l := by
  have hsplit := List.takeWhile_append_dropWhile (p := Char.isWhitespace)
    (l := (List.dropWhile Char.isWhitespace l).reverse)
  have hm : List.dropWhile Char.isWhitespace l =
      (List.dropWhile Char.isWhitespace (List.dropWhile Char.isWhitespace l).reverse).reverse ++
      (List.takeWhile Char.isWhitespace (List.dropWhile Char.isWhitespace l).reverse).reverse := by
    conv_lhs => rw [← List.reverse_reverse (List.dropWhile Char.isWhitespace l), ← hsplit]
    rw [List.reverse_append]
  have h2 : words (stripChars l) = words (List.dropWhile Char.isWhitespace l) := by
    rw [stripChars]
    conv_rhs => rw [hm]
    rw [words_append_ws _ fun c hc => List.mem_takeWhile_imp (List.mem_reverse.mp hc)]
  rw [h2, words_dropWhile]

theorem words_token_append {w : List Char} (r : List Char) (h1 : w ≠ [])
    (h2 : ∀ c ∈ w, c.isWhitespace = false) :
    words (w ++ ' ' :: r) = w :: words r := by
  have hsp : (' ' : Char).isWhitespace = true := by decide
  cases w with
  | nil => exact absurd rfl h1
  | cons c cs =>
    rw [List.cons_append, words_cons_of_not_ws (by simp [h2 c (by simp)])]
    have hall : ∀ a ∈ cs, (!a.isWhitespace) = true := fun a ha => by
      simp [h2 a (by simp [ha])]
    rw [takeWhile_append_all _ hall, dropWhile_append_all _ hall]
    have ht : List.takeWhile (fun x => !x.isWhitespace) (' ' :: r) = [] := by
      simp [List.takeWhile_cons, hsp]
    have hd : List.dropWhile (fun x => !x.isWhitespace) (' ' :: r) = ' ' :: r := by
      simp [List.dropWhile_cons, hsp]
    rw [ht, hd, List.append_nil, words_cons_of_ws hsp]

theorem words_joinWords {ws : List (List Char)}
    (h : ∀ w ∈ ws, w ≠ [] ∧ ∀ c ∈ w, c.isWhitespace = false) :
    words (joinWords ws) = ws := by
  induction ws with
  | nil => rw [joinWords, words_nil_eq]
  | cons w rest ih =>
    cases rest with
    | nil =>
      rw [joinWords]
      exact words_single (h w (by simp)).1 (h w (by simp)).2
    | cons x xs =>
      rw [joinWords, words_token_append _ (h w (by simp)).1 (h w (by simp)).2]
      rw [ih fun u hu => h u (by simp [hu])]

theorem clean_of_mem_pySplitWS {u t : String} (ht : t ∈ pySplitWS u) :
    t.data ≠ [] ∧ ∀ c ∈ t.data, c.isWhitespace = false := by
  rcases List.mem_map.mp ht with ⟨w, hw, rfl⟩
  exact mem_words hw

theorem pySplitWS_token {t : String} (h1 : t.data ≠ [])
    (h2 : ∀ c ∈ t.data, c.isWhitespace = false) : pySplitWS t = [t] := by
  show (words t.data).map (fun w => (⟨w⟩ : String)) = [t]
  rw [words_single h1 h2]
  rfl

theorem pySplitWS_empty : pySplitWS "" = [] := by
  show (words "".data).map (fun w => (⟨w⟩ : String)) = []
  rw [show ("".data) = ([] : List Char) from rfl, words_nil_eq]
  rfl

theorem pySplitWS_joinTokens {ts : List String}
    (h : ∀ t ∈ ts, t.data ≠ [] ∧ ∀ c ∈ t.data, c.isWhitespace = false) :
    pySplitWS (joinTokens ts) = ts := by
  show (words (joinWords (ts.map String.data))).map (fun w => (⟨w⟩ : String)) = ts
  rw [words_joinWords fun w hw => by
    rcases List.mem_map.mp hw with ⟨t, htm, rfl⟩
    exact h t htm]
  rw [List.map_map]
  have hid : ((fun w => (⟨w⟩ : String)) ∘ String.data) = id := funext fun t => rfl
  rw [hid, List.map_id]

theorem pySplitWS_pyStrip (s : String) : pySplitWS (pyStrip s) = pySplitWS s := by
  show (words (stripChars s.data)).map (fun w => (⟨w⟩ : String)) =
    (words s.data).map (fun w => (⟨w⟩ : String))
  rw [words_stripChars]

/-- C9: re-splitting the non-empty output fields of `split_name` on
whitespace and concatenating the token lists in field order recovers the
whitespace token sequence of the input exactly. -/
theorem split_name_roundtrip (s : String) :
    pySplitWS (split_name s).apellido_paterno ++ pySplitWS (split_name s).apellido_materno ++
      pySplitWS (split_name s).primer_nombre ++ pySplitWS (split_name s).segundo_nombre =
      pySplitWS s := by
  rw [← pySplitWS_pyStrip s]
  rcases h : pySplitWS (pyStrip s) with _ | ⟨t0, _ | ⟨t1, _ | ⟨t2, _ | ⟨t3, rest⟩⟩⟩⟩
  · have hs : split_name s = ⟨"", "", "", ""⟩ := by simp [split_name, h]
    rw [hs]
    simp [pySplitWS_empty]
  · have hs : split_name s = ⟨t0, "", "", ""⟩ := by
      simp [split_name, h, List.getElem!_cons_zero]
    have hc0 := clean_of_mem_pySplitWS (h ▸ List.mem_cons_self t0 [])
    rw [hs]
    simp [pySplitWS_empty, pySplitWS_token hc0.1 hc0.2]
  · have hs : split_name s = ⟨t0, "", t1, ""⟩ := by
      simp [split_name, h, List.getElem!_cons_zero, List.getElem!_cons_succ]
    have hc0 := clean_of_mem_pySplitWS (h ▸ (List.mem_cons_self t0 [t1]))
    have hc1 := clean_of_mem_pySplitWS (h ▸ (List.mem_cons_of_mem t0 (List.mem_cons_self t1 [])))
    rw [hs]
    simp [pySplitWS_empty, pySplitWS_token hc0.1 hc0.2, pySplitWS_token hc1.1 hc1.2]
  · have hs : split_name s = ⟨t0, t1, t2, ""⟩ := by
      simp [split_name, h, List.getElem!_cons_zero, List.getElem!_cons_succ]
    have hc0 := clean_of_mem_pySplitWS (h ▸ (List.mem_cons_self t0 [t1, t2]))
    have hc1 := clean_of_mem_pySplitWS (h ▸ (List.mem_cons_of_mem t0 (List.mem_cons_self t1 [t2])))
    have hc2 := clean_of_mem_pySplitWS
      (h ▸ (List.mem_cons_of_mem t0 (List.mem_cons_of_mem t1 (List.mem_cons_self t2 []))))
    rw [hs]
    simp [pySplitWS_empty, pySplitWS_token hc0.1 hc0.2, pySplitWS_token hc1.1 hc1.2,
      pySplitWS_token hc2.1 hc2.2]
  · have hs : split_name s = ⟨t0, t1, t2, joinTokens (t3 :: rest)⟩ := by
      simp [split_name, h, List.getElem!_cons_zero, List.getElem!_cons_succ]
    have hc0 := clean_of_mem_pySplitWS (h ▸ (List.mem_cons_self t0 (t1 :: t2 :: t3 :: rest)))
    have hc1 := clean_of_mem_pySplitWS
      (h ▸ (List.mem_cons_of_mem t0 (List.mem_cons_self t1 (t2 :: t3 :: rest))))
    have hc2 := clean_of_mem_pySplitWS
      (h ▸ (List.mem_cons_of_mem t0 (List.mem_cons_of_mem t1 (List.mem_cons_self t2 (t3 :: rest)))))
    have hrest : ∀ t ∈ t3 :: rest, t.data ≠ [] ∧ ∀ c ∈ t.data, c.isWhitespace = false := by
      intro t htm
      exact clean_of_mem_pySplitWS (h ▸ (List.mem_cons_of_mem t0 (List.mem_cons_of_mem t1
        (List.mem_cons_of_mem t2 htm))))
    rw [hs]
    simp [pySplitWS_token hc0.1 hc0.2, pySplitWS_token hc1.1 hc1.2,
      pySplitWS_token hc2.1 hc2.2, pySplitWS_joinTokens hrest]

/-- C1: for every input string, `split_name` tokenizes on whitespace and
returns exactly the documented shape for token counts 0, 1, 2, 3 and ≥ 4
(surplus tokens joined by single spaces into `segundo_nombre`). -/
theorem split_name_shape (s : String) :
    (match pySplitWS (pyStrip s) with
      | [] => split_name s = ⟨"", "", "", ""⟩
      | [t0] => split_name s = ⟨t0, "", "", ""⟩
      | [t0, t1] => split_name s = ⟨t0, "", t1, ""⟩
      | [t0, t1, t2] => split_name s = ⟨t0, t1, t2, ""⟩
      | t0 :: t1 :: t2 :: t3 :: rest => split_name s = ⟨t0, t1, t2, joinTokens (t3 :: rest)⟩) := by
  rcases h : pySplitWS (pyStrip s) with _ | ⟨t0, _ | ⟨t1, _ | ⟨t2, _ | ⟨t3, rest⟩⟩⟩⟩ <;>
    simp [split_name, h, List.getElem!_cons_zero, List.getElem!_cons_succ]

theorem dropWhile_eq_self_of_all_false {α : Type} {p : α → Bool} {l : List α}
    (h : ∀ a ∈ l, p a = false) : l.dropWhile p = l := by
  cases l with
  | nil => rfl
  | cons a t => rw [List.dropWhile_cons, if_neg (by simp [h a (by simp)])]

theorem dropWhile_head?_false {α : Type} {p : α → Bool} :
    ∀ {l : List α} {c : α}, (l.dropWhile p).head? = some c → p c = false := by
  intro l
  induction l with
  | nil => intro c h; simp at h
  | cons a t ih =>
    intro c h
    by_cases ha : p a = true
    · rw [List.dropWhile_cons, if_pos ha] at h
      exact ih h
    · rw [List.dropWhile_cons, if_neg ha] at h
      cases Option.some.inj h
      simpa using ha

theorem stripChars_eq_rdropWhile (l : List Char) :
    stripChars l = List.rdropWhile Char.isWhitespace (List.dropWhile Char.isWhitespace l) := by
  rw [stripChars, List.rdropWhile]

theorem stripChars_head?_not_ws {l : List Char} {c : Char}
    (h : (stripChars l).head? = some c) : c.isWhitespace = false := by
  rw [stripChars_eq_rdropWhile] at h
  obtain ⟨t, ht⟩ := List.rdropWhile_prefix Char.isWhitespace (List.dropWhile Char.isWhitespace l)
  have h2 : (List.dropWhile Char.isWhitespace l).head? = some c := by
    rw [← ht, List.head?_append, h]
    rfl
  exact dropWhile_head?_false h2

theorem stripChars_getLast?_not_ws {l : List Char} {c : Char}
    (h : (stripChars l).getLast? = some c) : c.isWhitespace = false := by
  rw [stripChars_eq_rdropWhile] at h
  have hne : List.rdropWhile Char.isWhitespace (List.dropWhile Char.isWhitespace l) ≠ [] := by
    intro he
    rw [he] at h
    simp at h
  rw [List.getLast?_eq_getLast _ hne] at h
  have hlast := List.rdropWhile_last_not Char.isWhitespace (List.dropWhile Char.isWhitespace l) hne
  cases Option.some.inj h
  simpa using hlast

theorem stripChars_of_no_ws {l : List Char} (h : ∀ c ∈ l, c.isWhitespace = false) :
    stripChars l = l := by
  rw [stripChars, dropWhile_eq_self_of_all_false h,
    dropWhile_eq_self_of_all_false fun a ha => h a (List.mem_reverse.mp ha),
    List.reverse_reverse]

theorem ws_not_unsafeFilenameChar {c : Char} (hw : c.isWhitespace = true) :
    c ∉ unsafeFilenameChars := by
  intro hmem
  simp only [unsafeFilenameChars, List.mem_cons, List.not_mem_nil, or_false] at hmem
  rcases hmem with rfl | rfl | rfl | rfl | rfl | rfl | rfl | rfl | rfl <;>
    exact absurd hw (by decide)

/-- C10: `sanitize_filename` replaces each of the characters
`< > : " / \ | ? *` by an underscore and then strips surrounding
whitespace; a whitespace-only (or empty) label maps to `"unknown"`,
surrounding whitespace never survives into the output, and a label of
only unsafe characters maps to underscores, never to the placeholder. -/
theorem sanitize_filename_eq (name : String) :
    sanitize_filename name =
      if pyStrip ⟨name.data.map fun c => if c ∈ unsafeFilenameChars then '_' else c⟩ = ""
      then "unknown"
      else pyStrip ⟨name.data.map fun c => if c ∈ unsafeFilenameChars then '_' else c⟩ := rfl

/-- C10: `sanitize_filename` replaces each of the characters
`< > : " / \ | ? *` by an underscore and then strips surrounding
whitespace; a whitespace-only (or empty) label maps to `"unknown"`,
surrounding whitespace never survives into the output, and a label of
only unsafe characters maps to underscores, never to the placeholder. -/
theorem sanitize_filename_spec :
    (∀ name : String, sanitize_filename name =
      (if pyStrip ⟨name.data.map fun c => if c ∈ unsafeFilenameChars then '_' else c⟩ = ""
       then "unknown"
       else pyStrip ⟨name.data.map fun c => if c ∈ unsafeFilenameChars then '_' else c⟩)) ∧
    (∀ name : String, (∀ c ∈ name.data, c.isWhitespace = true) →
      sanitize_filename name = "unknown") ∧
    (∀ (name : String) (c : Char),
      ((sanitize_filename name).data.head? = some c ∨
        (sanitize_filename name).data.getLast? = some c) →
      c.isWhitespace = false) ∧
    (∀ name : String, name.data ≠ [] → (∀ c ∈ name.data, c ∈ unsafeFilenameChars) →
      sanitize_filename name = ⟨name.data.map fun _ => '_'⟩) ∧
    sanitize_filename "?" = "_" := by
  refine ⟨sanitize_filename_eq, ?hws, ?hbound, ?hbad, by decide⟩
  case hws =>
    intro name h
    have hmap : name.data.map (fun c => if c ∈ unsafeFilenameChars then '_' else c) = name.data := by
      rw [List.map_congr_left fun a ha => if_neg (ws_not_unsafeFilenameChar (h a ha))]
      exact List.map_id name.data
    have hstrip : stripChars name.data = [] := by
      rw [stripChars, List.dropWhile_eq_nil_iff.mpr h]
      rfl
    have hcond : pyStrip (⟨name.data.map fun c =>
        if c ∈ unsafeFilenameChars then '_' else c⟩ : String) = "" := by
      show (⟨stripChars (name.data.map fun c =>
        if c ∈ unsafeFilenameChars then '_' else c)⟩ : String) = ""
      rw [hmap, hstrip]
    rw [sanitize_filename_eq, if_pos hcond]
  case hbound =>
    intro name c hc
    by_cases he : pyStrip (⟨name.data.map fun c =>
        if c ∈ unsafeFilenameChars then '_' else c⟩ : String) = ""
    · rw [sanitize_filename_eq, if_pos he] at hc
      rcases hc with h | h
      · have : c = 'u' := by simpa using h.symm
        subst this; decide
      · have : c = 'n' := by simpa using h.symm
        subst this; decide
    · rw [sanitize_filename_eq, if_neg he] at hc
      rcases hc with h | h
      · exact stripChars_head?_not_ws h
      · exact stripChars_getLast?_not_ws h
  case hbad =>
    intro name hne hall
    have hmap : name.data.map (fun c => if c ∈ unsafeFilenameChars then '_' else c) =
        name.data.map fun _ => '_' :=
      List.map_congr_left fun a ha => if_pos (hall a ha)
    have hclean : ∀ c ∈ name.data.map fun _ : Char => '_', c.isWhitespace = false := by
      intro c hcm
      rcases List.mem_map.mp hcm with ⟨a, _, rfl⟩
      decide
    have hstr : stripChars (name.data.map fun _ : Char => '_') = name.data.map fun _ => '_' :=
      stripChars_of_no_ws hclean
    have hne2 : pyStrip (⟨name.data.map fun c =>
        if c ∈ unsafeFilenameChars then '_' else c⟩ : String) ≠ "" := by
      show (⟨stripChars (name.data.map fun c =>
        if c ∈ unsafeFilenameChars then '_' else c)⟩ : String) ≠ ""
      rw [hmap, hstr]
      intro hx
      have hd : name.data.map (fun _ : Char => '_') = [] := congrArg String.data hx
      exact hne (List.map_eq_nil_iff.mp hd)
    rw [sanitize_filename_eq, if_neg hne2]
    show (⟨stripChars (name.data.map fun c =>
      if c ∈ unsafeFilenameChars then '_' else c)⟩ : String) = _
    rw [hmap, hstr]

theorem sanitize_filename_spec_witness :
    sanitize_filename " " = "unknown" ∧
      sanitize_filename "?" = (⟨"?".data.map fun _ => '_'⟩ : String) :=
  ⟨sanitize_filename_spec.2.1 " " (by decide),
    sanitize_filename_spec.2.2.2.1 "?" (by decide) (by decide)⟩

/-- C3: `parse_programas` collects anchors only from target-tier
(`LICENCIATURA`) tables; the first terminator (`DOCTORADO`) table is a
hard stop — nothing from it or from any later table is returned, whatever
follows it; before the terminator, target tables contribute their
qualifying anchors in document order. -/
theorem parse_programas_spec :
    (∀ (pre post : List HTable) (t : HTable), classifyTable t = .terminator →
      parse_programas (pre ++ t :: post) = parse_programas pre) ∧
    (∀ tables : List HTable, (∀ t ∈ tables, classifyTable t ≠ .terminator) →
      parse_programas tables =
        ((tables.filter fun u => decide (classifyTable u = .target)).map fun u =>
          collectAnchors u.anchors).flatten) ∧
    (∀ anchors : List Anchor, collectAnchors anchors = anchors.filterMap fun a =>
      if containsStr (pyStrip a.href) "titulados.asp" = true ∧
          containsStr (pyStrip a.href) "prog=" = true ∧ pyStrip a.text ≠ ""
      then some (pyStrip a.text, resolve_href (pyStrip a.href)) else none) := by
  refine ⟨?hstop, ?hcollect, ?hanchors⟩
  case hstop =>
    intro pre post t ht
    induction pre with
    | nil => simp [parse_programas, ht]
    | cons u pre ih =>
      cases hu : classifyTable u <;> simp [parse_programas, hu, ih]
  case hcollect =>
    intro tables h
    induction tables with
    | nil => simp [parse_programas]
    | cons u ts ih =>
      cases hu : classifyTable u with
      | terminator => exact absurd hu (h u (by simp))
      | target =>
        rw [parse_programas, hu, ih fun t htm => h t (by simp [htm])]
        simp [hu]
      | skip =>
        rw [parse_programas, hu, ih fun t htm => h t (by simp [htm])]
        simp [hu]
  case hanchors =>
    intro anchors
    induction anchors with
    | nil => rfl
    | cons a rest ih =>
      by_cases h1 : containsStr (pyStrip a.href) "titulados.asp" = true
      · by_cases h2 : containsStr (pyStrip a.href) "prog=" = true
        · by_cases h3 : pyStrip a.text = ""
          · simp [collectAnchors, List.filterMap_cons, h1, h2, h3, ih]
          · simp [collectAnchors, List.filterMap_cons, h1, h2, h3, ih]
        · simp [collectAnchors, List.filterMap_cons, h1, h2, ih]
      · simp [collectAnchors, List.filterMap_cons, h1, ih]

theorem parse_programas_spec_witness :
    parse_programas [licTableA, doctTable, licTableB] = parse_programas [licTableA] :=
  parse_programas_spec.1 [licTableA] [licTableB] doctTable (by decide)

/-- C8 counterexample: a protocol-relative link target
(`//static.example.net/...`) does NOT pass through unchanged — the site
host is prepended to it. -/
theorem resolve_href_proto_rel_counterexample :
    parse_programas [protoRelTable] =
      [("PROTO", "https://escolar1.rhon.itam.mx//static.example.net/titulados.asp?prog=7")] ∧
    resolve_href "//static.example.net/titulados.asp?prog=7" ≠
      "//static.example.net/titulados.asp?prog=7" := by
  constructor <;> decide

/-- C8 (amended): a link target starting with `"http"` passes through
unchanged; any other target starting with `"/"` — including
protocol-relative `"//"` targets — gets the site host
`https://escolar1.rhon.itam.mx` prepended; any other target is resolved
by appending it to the base address; the anchor's stripped visible text
becomes the label of the collected pair. -/
theorem resolve_href_spec :
    (∀ href : String, startsWithStr href "http" = true → resolve_href href = href) ∧
    (∀ href : String, startsWithStr href "http" = false → startsWithStr href "/" = true →
      resolve_href href = "https://escolar1.rhon.itam.mx" ++ href) ∧
    (∀ href : String, startsWithStr href "http" = false → startsWithStr href "/" = false →
      resolve_href href = BASE_URL ++ "/" ++ href) ∧
    (∀ (a : Anchor) (rest : List Anchor),
      (containsStr (pyStrip a.href) "titulados.asp" &&
        containsStr (pyStrip a.href) "prog=") = true →
      pyStrip a.text ≠ "" →
      collectAnchors (a :: rest) =
        (pyStrip a.text, resolve_href (pyStrip a.href)) :: collectAnchors rest) := by
  refine ⟨?habs, ?hroot, ?hrel, ?hpair⟩
  case habs =>
    intro href h
    rw [resolve_href, if_pos h]
  case hroot =>
    intro href h1 h2
    rw [resolve_href, if_neg (by simp [h1]), if_pos h2]
  case hrel =>
    intro href h1 h2
    rw [resolve_href, if_neg (by simp [h1]), if_neg (by simp [h2])]
  case hpair =>
    intro a rest h1 h2
    rw [collectAnchors]
    simp only [h1, Bool.not_true, Bool.false_eq_true, if_false]
    rw [if_neg h2]

theorem resolve_href_spec_witness :
    resolve_href "/titulados.asp?prog=3" = "https://escolar1.rhon.itam.mx/titulados.asp?prog=3" :=
  resolve_href_spec.2.1 "/titulados.asp?prog=3" (by decide) (by decide)

theorem tableMatches_iff (t : HTable) :
    tableMatches t = true ↔
      (containsStr (headerText t) "Nombre" = true ∧
        containsStr (headerText t) "alumno" = true ∧
        containsStr (headerText t) "titulaci" = true) := by
  cases ht : t.rows with
  | nil =>
    simp only [tableMatches, headerText, ht]
    decide
  | cons firstRow rows =>
    cases hr : firstRow with
    | nil =>
      simp only [tableMatches, headerText, ht, hr]
      decide
    | cons c0 cs =>
      simp only [tableMatches, headerText, ht, hr]
      simp [Bool.and_eq_true, and_assoc]

/-- C4: `parse_titulados_table` selects a table iff its joined header text
contains the name markers (`"Nombre"`, `"alumno"`) and the year marker
(`"titulaci"`); a document whose tables all lack the year marker yields no
rows; and the FIRST matching table wins — later tables are not scanned. -/
theorem parse_titulados_table_spec :
    (∀ t : HTable, tableMatches t = true ↔
      (containsStr (headerText t) "Nombre" = true ∧
        containsStr (headerText t) "alumno" = true ∧
        containsStr (headerText t) "titulaci" = true)) ∧
    (∀ tables : List HTable, (∀ u ∈ tables, containsStr (headerText u) "titulaci" = false) →
      parse_titulados_table tables = []) ∧
    (∀ (pre : List HTable) (t : HTable) (post : List HTable),
      (∀ u ∈ pre, tableMatches u = false) → tableMatches t = true →
      parse_titulados_table (pre ++ t :: post) = rowData t) := by
  refine ⟨tableMatches_iff, ?hnoyear, ?hfirst⟩
  case hnoyear =>
    intro tables h
    induction tables with
    | nil => rfl
    | cons u ts ih =>
      have hu : tableMatches u = false := by
        rw [Bool.eq_false_iff]
        intro hm
        exact absurd ((tableMatches_iff u).mp hm).2.2 (by simp [h u (by simp)])
      rw [parse_titulados_table, if_neg (by simp [hu])]
      exact ih fun v hv => h v (by simp [hv])
  case hfirst =>
    intro pre t post hpre ht
    induction pre with
    | nil =>
      rw [List.nil_append, parse_titulados_table, if_pos ht]
    | cons u us ih =>
      rw [List.cons_append, parse_titulados_table, if_neg (by simp [hpre u (by simp)])]
      exact ih fun v hv => hpre v (by simp [hv])

theorem parse_titulados_table_spec_witness :
    parse_titulados_table [nameOnlyTable, dataTable, dataTable2] = rowData dataTable :=
  parse_titulados_table_spec.2.2 [nameOnlyTable] dataTable [dataTable2]
    (by intro u hu; rw [List.mem_singleton.mp hu]; decide) (by decide)

/-- C2: when the first fetch parses to zero rows and the url is of the
listing-page kind, `scrape_career` re-fetches the SAME url once with
ISO-8859-1 forced and re-parses; zero rows after the retry is the
successful outcome `.ok 0`, not an error; and when the first parse yields
rows, the retry fetch is never consulted. -/
theorem scrape_career_spec :
    (∀ (fetch : FetchFn) (url : String) (doc : List HTable),
      fetch url none = .ok doc → parse_titulados_table doc = [] →
      containsStr url "titulados.asp" = true →
      scrape_career fetch url =
        (match fetch url (some "iso-8859-1") with
          | .error e => .error e
          | .ok doc2 => .ok (parse_titulados_table doc2).length)) ∧
    (∀ (fetch : FetchFn) (url : String) (doc doc2 : List HTable),
      fetch url none = .ok doc → parse_titulados_table doc = [] →
      containsStr url "titulados.asp" = true →
      fetch url (some "iso-8859-1") = .ok doc2 → parse_titulados_table doc2 = [] →
      scrape_career fetch url = .ok 0) ∧
    (∀ (fetch : FetchFn) (url : String) (doc : List HTable),
      fetch url none = .ok doc → parse_titulados_table doc ≠ [] →
      scrape_career fetch url = .ok (parse_titulados_table doc).length) ∧
    (∀ (f g : FetchFn) (url : String),
      f url none = g url none →
      (∀ doc : List HTable, f url none = .ok doc → parse_titulados_table doc ≠ []) →
      scrape_career f url = scrape_career g url) := by
  refine ⟨?hretry, ?hzero, ?hrows, ?hnorefetch⟩
  case hretry =>
    intro fetch url doc hf hp hurl
    simp only [scrape_career, hf]
    rw [if_pos ⟨hp, hurl⟩]
  case hzero =>
    intro fetch url doc doc2 hf hp hurl hf2 hp2
    simp only [scrape_career, hf]
    rw [if_pos ⟨hp, hurl⟩, hf2]
    simp only [hp2, List.length_nil]
  case hrows =>
    intro fetch url doc hf hp
    simp only [scrape_career, hf]
    rw [if_neg fun hc => hp hc.1]
  case hnorefetch =>
    intro f g url heq hrows
    cases hres : f url none with
    | error e =>
      simp only [scrape_career, ← heq, hres]
    | ok doc =>
      simp only [scrape_career, ← heq, hres]
      rw [if_neg fun hc => hrows doc hres hc.1, if_neg fun hc => hrows doc hres hc.1]

theorem scrape_career_spec_witness :
    scrape_career emptyFetch "titulados.asp?prog=1" = .ok 0 :=
  scrape_career_spec.2.1 emptyFetch "titulados.asp?prog=1" [] [] rfl rfl (by decide) rfl rfl

/-- C6: `get_latest_html` makes up to `RETRIES` = 2 additional attempts
with a fixed `RETRY_DELAY` = 2 second sleep before each retry; when all
three attempts fail it fails carrying the LAST cause; the first successful
attempt's body is returned at once, with no dependence on later attempts. -/
theorem get_latest_html_spec :
    (∀ (f : AttemptFn) (url e0 e1 e2 : String),
      f 0 = .error e0 → f 1 = .error e1 → f 2 = .error e2 →
      get_latest_html f url =
        (.error ("Failed to fetch " ++ url ++ ": " ++ e2), [RETRY_DELAY, RETRY_DELAY])) ∧
    (∀ (f g : AttemptFn) (url : String) (k : Nat) (b : String),
      k ≤ RETRIES → (∀ j, j < k → ∃ e, f j = .error e) → f k = .ok b →
      (∀ j, j ≤ k → g j = f j) →
      get_latest_html g url = (.ok b, List.replicate k RETRY_DELAY)) := by
  constructor
  · intro f url e0 e1 e2 h0 h1 h2
    simp [get_latest_html, RETRIES, get_latest_html_go, h0, h1, h2]
  · intro f g url k b hk hfail hok hagree
    have hk2 : k ≤ 2 := hk
    clear hk
    interval_cases k
    · have hg0 : g 0 = .ok b := (hagree 0 (by omega)).trans hok
      simp [get_latest_html, RETRIES, get_latest_html_go, hg0]
    · obtain ⟨e, he⟩ := hfail 0 (by omega)
      have hg0 : g 0 = .error e := (hagree 0 (by omega)).trans he
      have hg1 : g 1 = .ok b := (hagree 1 (by omega)).trans hok
      simp [get_latest_html, RETRIES, get_latest_html_go, hg0, hg1, RETRY_DELAY]
    · obtain ⟨e, he⟩ := hfail 0 (by omega)
      obtain ⟨e', he'⟩ := hfail 1 (by omega)
      have hg0 : g 0 = .error e := (hagree 0 (by omega)).trans he
      have hg1 : g 1 = .error e' := (hagree 1 (by omega)).trans he'
      have hg2 : g 2 = .ok b := (hagree 2 (by omega)).trans hok
      simp [get_latest_html, RETRIES, get_latest_html_go, hg0, hg1, hg2, RETRY_DELAY]

theorem get_latest_html_spec_witness :
    get_latest_html failThenOk "https://example.net/p" = (.ok "body", List.replicate 1 RETRY_DELAY) :=
  get_latest_html_spec.2 failThenOk failThenOk "https://example.net/p" 1 "body" (by decide)
    (fun j hj => ⟨"timeout", by
      have hj0 : j = 0 := by omega
      rw [hj0]
      rfl⟩)
    rfl (fun j _ => rfl)

/-- C7: when the index document yields zero categories, the run stops at
the discovery-failure outcome and no category worker is consulted — the
outcome is identical for every worker oracle. -/
theorem main_discovery_spec :
    ∀ (doc : List HTable) (w w' : WorkerFn), parse_programas doc = [] →
      main_run (.ok doc) w = .discoveryFailure ∧
        main_run (.ok doc) w = main_run (.ok doc) w' := by
  intro doc w w' h
  constructor <;> simp [main_run, h]

theorem main_discovery_spec_witness :
    main_run (.ok []) (fun _ _ => .ok 5) = .discoveryFailure ∧
      main_run (.ok []) (fun _ _ => .ok 5) = main_run (.ok []) (fun _ _ => .error "x") :=
  main_discovery_spec [] (fun _ _ => .ok 5) (fun _ _ => .error "x") rfl

theorem length_filter_add_length_filter_not {α : Type} (p : α → Bool) (l : List α) :
    (l.filter p).length + (l.filter fun a => !(p a)).length = l.length := by
  induction l with
  | nil => rfl
  | cons a t ih =>
    cases hp : p a <;> simp [List.filter_cons, hp, ← ih] <;> omega

theorem run_workers_cons (w : WorkerFn) (c : String × String) (cs : List (String × String)) :
    run_workers w (c :: cs) =
      (match w c.1 c.2 with
        | .ok count => (c.1, count, none)
        | .error e => (c.1, 0, some e)) :: run_workers w cs := rfl

theorem run_workers_okCount (w : WorkerFn) (cs : List (String × String)) :
    ((run_workers w cs).filter fun r => r.2.2.isNone).length =
      (cs.filter fun c => (w c.1 c.2).isOk).length := by
  induction cs with
  | nil => rfl
  | cons c cs ih =>
    rw [run_workers_cons]
    cases hw : w c.1 c.2 with
    | ok n => simp [List.filter_cons, hw, Except.isOk, Except.toBool, ih]
    | error e => simp [List.filter_cons, hw, Except.isOk, Except.toBool, ih]

theorem run_workers_totalRows (w : WorkerFn) (cs : List (String × String)) :
    (((run_workers w cs).filter fun r => r.2.2.isNone).map fun r => r.2.1).sum =
      (cs.filterMap fun c => (w c.1 c.2).toOption).sum := by
  induction cs with
  | nil => rfl
  | cons c cs ih =>
    rw [run_workers_cons]
    cases hw : w c.1 c.2 with
    | ok n =>
      simp [List.filter_cons, List.filterMap_cons, hw, Except.toOption, ih]
    | error e =>
      simp [List.filter_cons, List.filterMap_cons, hw, Except.toOption, ih]

theorem run_workers_failures (w : WorkerFn) (cs : List (String × String)) :
    ((run_workers w cs).filterMap fun r => r.2.2.map fun e => (r.1, e)) =
      cs.filterMap fun c =>
        match w c.1 c.2 with
        | .error e => some (c.1, e)
        | .ok _ => none := by
  induction cs with
  | nil => rfl
  | cons c cs ih =>
    rw [run_workers_cons]
    cases hw : w c.1 c.2 with
    | ok n => simp [List.filterMap_cons, hw, ih]
    | error e => simp [List.filterMap_cons, hw, ih]

/-- C5: over N discovered categories of which K fail, the completed
summary reports exactly N − K successes, the K failures with their labels
and causes, and a total row count summed over the succeeded categories
only; every category's outcome is collected — one per category. -/
theorem main_summary_spec :
    ∀ (doc : List HTable) (w : WorkerFn), parse_programas doc ≠ [] →
      main_run (.ok doc) w = .completed
        { okCount := (parse_programas doc).length -
            ((parse_programas doc).filter fun c => !(w c.1 c.2).isOk).length
          totalCareers := (parse_programas doc).length
          totalRows := ((parse_programas doc).filterMap fun c => (w c.1 c.2).toOption).sum
          failures := (parse_programas doc).filterMap fun c =>
            match w c.1 c.2 with
            | .error e => some (c.1, e)
            | .ok _ => none } := by
  intro doc w h
  simp only [main_run]
  rw [if_neg h]
  refine congrArg RunOutcome.completed ?_
  have hok : ((run_workers w (parse_programas doc)).filter fun r => r.2.2.isNone).length =
      (parse_programas doc).length -
        ((parse_programas doc).filter fun c => !(w c.1 c.2).isOk).length := by
    rw [run_workers_okCount]
    have := length_filter_add_length_filter_not (fun c => (w c.1 c.2).isOk) (parse_programas doc)
    omega
  rw [RunSummary.mk.injEq]
  exact ⟨hok, rfl, run_workers_totalRows w (parse_programas doc),
    run_workers_failures w (parse_programas doc)⟩

theorem main_summary_spec_witness :
    main_run (.ok [licTableTwo]) demoWorker =
      .completed ⟨1, 2, 3, [("B", "boom")]⟩ :=
  (main_summary_spec [licTableTwo] demoWorker (by decide)).trans (by decide)

end Titulados
